import Mathlib

/-!
Verification of the blurhash batch encoder (src/main.rs and its blurhash codec).

The repository source under src/ contains only main.rs (argument handling, file
discovery, the batch orchestrator and the per-file pipeline).  The blurhash
codec module (mod blurhash, function blurhash::encode) is declared there but its
source file is not part of src/, so the codec is modelled from the
specification, section 4.1/4.2/6.  The orchestration code (process_image,
get_image_paths, is_image_file, search_directory, main) is embedded directly
from src/main.rs.

Numeric caveat: the codec works on IEEE doubles (cosines, the 2.4 power of the
sRGB transfer curve, square roots).  Those transcendental real-valued steps are
modelled by an oracle structure (CodecOracle) over the rationals; every theorem
about the codec below is universally quantified over the oracle, hence holds in
particular for the true coefficient values of any pixel buffer.  All claims
settled here (output length, alphabet membership, error classification) are
independent of the oracle values because the quantisation steps clamp into
fixed ranges, exactly as the specification describes.
-/

namespace Blurhash

/-- The 83-symbol BlurHash alphabet, in the published order (spec section 6;
the section 3 listing, which is the 83-symbol one without a slash). -/
def base83Chars : List Char :=
  "0123456789ABCDEFGHIJKLMNOPQRSTUVWXYZabcdefghijklmnopqrstuvwxyz#$%*+,-.:;=?@[]^_\x7b|\x7d~".data

/-- Modelled from the spec (section 4.2): base-83 positional encoding of an
unsigned integer into a fixed number of digits, most significant first.
Each digit is value / 83 ^ (digits - 1 - i) mod 83. -/
def encodeInt (value : Nat) (digits : Nat) : List Char :=
  (List.range digits).map (fun i => base83Chars.getD (value / 83 ^ (digits - 1 - i) % 83) ' ')

/-- Error kinds of the codec (spec sections 4.1 and 7). -/
inductive EncodeError where
  | invalidGrid
  | emptyImage
deriving DecidableEq

/-- Modelled from the spec: the transcendental real-valued pieces of the codec
that cannot be expressed as computable rational functions.
`coeff pixels w h i j` stands for the (i,j) DCT basis coefficient of the image
(spec section 4.1 step 2, a cosine-weighted sum over linearised pixels);
`gammaInv` stands for the linear-light to sRGB transfer function used on the DC
term (step 3), which maps [0,1] into [0,1]; `signPowHalf` stands for the
companding map signPow(x, 0.5) used on AC terms (step 5).  Claims proved below
hold for every oracle, hence for the true real-valued functions. -/
structure CodecOracle where
  coeff : List Nat → Nat → Nat → Nat → Nat → ℚ × ℚ × ℚ
  gammaInv : ℚ → ℚ
  gammaInv_mem : ∀ q : ℚ, 0 ≤ q → q ≤ 1 → 0 ≤ gammaInv q ∧ gammaInv q ≤ 1
  signPowHalf : ℚ → ℚ

/-- Clamp a rational into [0,1] (spec section 4.1 step 3). -/
def clamp01 (q : ℚ) : ℚ := if q < 0 then 0 else if 1 < q then 1 else q

/-- Clamp an integer into [lo, hi] (spec section 4.1 steps 4 and 5). -/
def clampI (x lo hi : Int) : Int := if x < lo then lo else if hi < x then hi else x

/-- Absolute value of a rational, written out so it mirrors the max(|.|) of the
spec (section 4.1 step 4). -/
def qabs (q : ℚ) : ℚ := if q < 0 then -q else q

/-- Modelled from the spec (section 4.1 step 3): one DC channel; clamp the
linear value to [0,1], convert linear to gamma, scale to 0..255 and round half
away from zero (the value is nonnegative, so that is floor(x + 1/2)). -/
def dcChannel (o : CodecOracle) (v : ℚ) : Nat :=
  (Rat.floor (o.gammaInv (clamp01 v) * 255 + 1 / 2)).toNat

/-- Modelled from the spec (section 4.1 step 4): quantise the largest absolute
AC channel value into 0..82 via clamp(floor(maxAC * 166 - 0.5), 0, 82); when
the grid is 1x1 there are no AC terms and the digit is 0 (section 8, the
uniform-colour property names the first alphabet symbol for the all-zero
case). -/
def quantizedMaxVal (factors : List (ℚ × ℚ × ℚ)) : Nat :=
  match factors with
  | [] => 0
  | _ :: _ =>
    let maxAC := factors.foldr
      (fun t m => max (max (qabs t.1) (max (qabs t.2.1) (qabs t.2.2))) m) 0
    (clampI (Rat.floor (maxAC * 166 - 1 / 2)) 0 82).toNat

/-- Modelled from the spec (section 4.1 step 5): quantise one AC channel into
0..18 via clamp(floor(signPow(v / actualMax, 0.5) * 9 + 9.5), 0, 18). -/
def acQuant (o : CodecOracle) (actualMax : ℚ) (v : ℚ) : Nat :=
  (clampI (Rat.floor (o.signPowHalf (v / actualMax) * 9 + 19 / 2)) 0 18).toNat

/-- Modelled from the spec (section 4.1 step 5): pack the three quantised AC
channels of one coefficient into 19*19*qr + 19*qg + qb. -/
def acValue (o : CodecOracle) (actualMax : ℚ) (t : ℚ × ℚ × ℚ) : Nat :=
  19 * 19 * acQuant o actualMax t.1 + 19 * acQuant o actualMax t.2.1 +
    acQuant o actualMax t.2.2

/-- Modelled from the spec (section 4.1 step 6): the AC coefficient index order,
row-major with j outer and i inner, skipping (0,0). -/
def acIndices (cx cy : Nat) : List (Nat × Nat) :=
  (((List.range cy).map (fun j => (List.range cx).map (fun i => (i, j)))).flatten).filter
    (fun ij => !(ij.1 == 0 && ij.2 == 0))

/-- Modelled from the spec (section 4.1 step 6 and section 6): assemble the hash
string; 1 base-83 digit for sizeFlag = (cx-1) + (cy-1)*9, 1 digit for the
quantised maximum, 4 digits for the packed 24-bit DC value, then 2 digits per
AC coefficient. -/
def assembleHash (o : CodecOracle) (pixels : List Nat) (cx cy w h : Nat) : String :=
  let factors := (acIndices cx cy).map (fun ij => o.coeff pixels w h ij.1 ij.2)
  let dc := o.coeff pixels w h 0 0
  let sizeFlag := (cx - 1) + (cy - 1) * 9
  let qMax := quantizedMaxVal factors
  let actualMax : ℚ := ((qMax : ℚ) + 1) / 166
  let dcValue := 65536 * dcChannel o dc.1 + 256 * dcChannel o dc.2.1 + dcChannel o dc.2.2
  ⟨encodeInt sizeFlag 1 ++ encodeInt qMax 1 ++ encodeInt dcValue 4 ++
    (factors.map (fun t => encodeInt (acValue o actualMax t) 2)).flatten⟩

/-- Modelled from the spec (section 4.1): blurhash::encode.  Fails with
InvalidGrid if either grid dimension is outside 1..=9, then with EmptyImage if
width or height is 0, otherwise assembles the hash. -/
def encode (o : CodecOracle) (pixels : List Nat) (componentsX componentsY width height : Nat) :
    Except EncodeError String :=
  if componentsX < 1 ∨ 9 < componentsX ∨ componentsY < 1 ∨ 9 < componentsY then
    .error .invalidGrid
  else if width = 0 ∨ height = 0 then
    .error .emptyImage
  else
    .ok (assembleHash o pixels componentsX componentsY width height)

/-- A concrete oracle used to instantiate the universally quantified theorems
at evaluable inputs: all coefficients zero, gamma transfer the clamp itself,
companding the identity. -/
def trivOracle : CodecOracle where
  coeff := fun _ _ _ _ _ => (0, 0, 0)
  gammaInv := fun q => clamp01 q
  gammaInv_mem := by
    intro q h0 h1
    simp only [clamp01]
    constructor
    · split
      · exact le_refl 0
      · split
        · exact zero_le_one
        · exact h0
    · split
      · exact zero_le_one
      · split
        · exact le_refl 1
        · exact h1
  signPowHalf := fun q => q

theorem encodeInt_length (v d : Nat) : (encodeInt v d).length = d := by
  simp [encodeInt]

theorem getD_mem_of_lt : ∀ (l : List Char) (i : Nat) (d : Char), i < l.length → l.getD i d ∈ l := by
  intro l
  induction l with
  | nil => intro i d h; simp at h
  | cons a t ih =>
    intro i d h
    cases i with
    | zero => simp [List.getD_cons_zero]
    | succ j =>
      have hj : j < t.length := by simpa using h
      simpa [List.getD_cons_succ] using Or.inr (ih j d hj)

theorem encodeInt_mem (v d : Nat) (c : Char) (hc : c ∈ encodeInt v d) : c ∈ base83Chars := by
  simp only [encodeInt, List.mem_map, List.mem_range] at hc
  obtain ⟨i, _, rfl⟩ := hc
  apply getD_mem_of_lt
  have h83 : v / 83 ^ (d - 1 - i) % 83 < 83 := Nat.mod_lt _ (by norm_num)
  have hlen : base83Chars.length = 83 := rfl
  omega

theorem acIndices_length_bounded :
    ∀ cx, cx < 10 → ∀ cy, cy < 10 → 1 ≤ cx → 1 ≤ cy →
      (acIndices cx cy).length = cx * cy - 1 := by decide

theorem flatten_pairs_length :
    ∀ (ls : List (List Char)), (∀ x ∈ ls, x.length = 2) → ls.flatten.length = 2 * ls.length := by
  intro ls
  induction ls with
  | nil => intro _; simp
  | cons a t ih =>
    intro h
    have ha : a.length = 2 := h a (by simp)
    have ht := ih (fun x hx => h x (by simp [hx]))
    simp [List.flatten_cons, ha, ht]
    omega

theorem acIndices_length (cx cy : Nat) (hx1 : 1 ≤ cx) (hx9 : cx ≤ 9) (hy1 : 1 ≤ cy)
    (hy9 : cy ≤ 9) : (acIndices cx cy).length = cx * cy - 1 :=
  acIndices_length_bounded cx (by omega) cy (by omega) hx1 hy1

theorem assembleHash_length (o : CodecOracle) (pixels : List Nat) (cx cy w h : Nat)
    (hx1 : 1 ≤ cx) (hx9 : cx ≤ 9) (hy1 : 1 ≤ cy) (hy9 : cy ≤ 9) :
    (assembleHash o pixels cx cy w h).length = 4 + 2 * (cx * cy) := by
  have hn : 1 ≤ cx * cy := Nat.mul_le_mul hx1 hy1
  have hfac :
      ((acIndices cx cy).map (fun ij => o.coeff pixels w h ij.1 ij.2)).length = cx * cy - 1 := by
    simp [List.length_map, acIndices_length cx cy hx1 hx9 hy1 hy9]
  have hflat := flatten_pairs_length
    (((acIndices cx cy).map (fun ij => o.coeff pixels w h ij.1 ij.2)).map
      (fun t => encodeInt (acValue o (((quantizedMaxVal
        ((acIndices cx cy).map (fun ij => o.coeff pixels w h ij.1 ij.2)) : ℚ) + 1) / 166) t) 2))
    (by intro x hx
        simp only [List.mem_map] at hx
        obtain ⟨t, _, rfl⟩ := hx
        exact encodeInt_length _ 2)
  simp only [assembleHash, String.length]
  simp only [List.length_append, encodeInt_length, hflat, List.length_map] at *
  omega

theorem assembleHash_chars (o : CodecOracle) (pixels : List Nat) (cx cy w h : Nat) :
    ∀ c ∈ (assembleHash o pixels cx cy w h).data, c ∈ base83Chars := by
  intro c hc
  simp only [assembleHash] at hc
  rcases List.mem_append.1 hc with hc1 | hcJ
  · rcases List.mem_append.1 hc1 with hc2 | hcDC
    · rcases List.mem_append.1 hc2 with hcS | hcQ
      · exact encodeInt_mem _ _ _ hcS
      · exact encodeInt_mem _ _ _ hcQ
    · exact encodeInt_mem _ _ _ hcDC
  · rcases List.mem_flatten.1 hcJ with ⟨l, hl, hcl⟩
    rcases List.mem_map.1 hl with ⟨t, _, rfl⟩
    exact encodeInt_mem _ _ _ hcl

/-- C1 (counterexample).  The claimed length formula 4 + 2*(cx*cy - 1) fails:
already at grid 1x1 on a 1x1 image the assembled hash has the 6 characters
sizeFlag, quantisedMax and four DC digits, while the formula demands 4. -/
theorem encode_length_formula_counterexample :
    (encode trivOracle [0, 0, 0, 255] 1 1 1 1).toOption.map String.length = some 6 ∧
      4 + 2 * (1 * 1 - 1) ≠ 6 := by
  constructor
  · rfl
  · decide

/-- C1 (amended).  For every oracle, every pixel buffer and every valid grid
(componentsX and componentsY in 1..=9) on a nonempty image, encode succeeds and
returns a string of exactly 4 + 2*(componentsX*componentsY) characters
(equivalently 6 + 2*(componentsX*componentsY - 1): one sizeFlag digit, one
quantisedMax digit, four DC digits and two digits per AC term), every character
drawn from the 83-symbol alphabet. -/
theorem encode_length_and_alphabet (o : CodecOracle) (pixels : List Nat) (cx cy w h : Nat)
    (hx1 : 1 ≤ cx) (hx9 : cx ≤ 9) (hy1 : 1 ≤ cy) (hy9 : cy ≤ 9) (hw : 0 < w) (hh : 0 < h) :
    encode o pixels cx cy w h = Except.ok (assembleHash o pixels cx cy w h) ∧
      (assembleHash o pixels cx cy w h).length = 4 + 2 * (cx * cy) ∧
      ∀ c ∈ (assembleHash o pixels cx cy w h).data, c ∈ base83Chars := by
  refine ⟨?_, assembleHash_length o pixels cx cy w h hx1 hx9 hy1 hy9,
    assembleHash_chars o pixels cx cy w h⟩
  unfold encode
  rw [if_neg (by omega), if_neg (by omega)]

/-- C1 (witness): the amended theorem applied at the default 4x3 grid on a
concrete 2x2 image. -/
theorem encode_length_and_alphabet_witness :
    (1 ≤ 4 ∧ 4 ≤ 9 ∧ 1 ≤ 3 ∧ 3 ≤ 9 ∧ 0 < 2 ∧ 0 < 2) ∧
      (encode trivOracle (List.replicate 16 0) 4 3 2 2 =
          Except.ok (assembleHash trivOracle (List.replicate 16 0) 4 3 2 2) ∧
        (assembleHash trivOracle (List.replicate 16 0) 4 3 2 2).length = 4 + 2 * (4 * 3) ∧
        ∀ c ∈ (assembleHash trivOracle (List.replicate 16 0) 4 3 2 2).data, c ∈ base83Chars) :=
  ⟨by decide,
    encode_length_and_alphabet trivOracle (List.replicate 16 0) 4 3 2 2
      (by decide) (by decide) (by decide) (by decide) (by decide) (by decide)⟩

/-- C7.  encode fails with InvalidGrid whenever a grid dimension is outside
1..=9 (regardless of the image), and fails with EmptyImage whenever the grid is
valid but width or height is 0.  In the model the grid check runs first, so a
call violating both constraints reports InvalidGrid. -/
theorem encode_error_conditions (o : CodecOracle) (pixels : List Nat) (cx cy w h : Nat) :
    (¬(1 ≤ cx ∧ cx ≤ 9 ∧ 1 ≤ cy ∧ cy ≤ 9) →
        encode o pixels cx cy w h = Except.error EncodeError.invalidGrid) ∧
      ((1 ≤ cx ∧ cx ≤ 9 ∧ 1 ≤ cy ∧ cy ≤ 9) → (w = 0 ∨ h = 0) →
        encode o pixels cx cy w h = Except.error EncodeError.emptyImage) := by
  constructor
  · intro hbad
    unfold encode
    rw [if_pos (by omega)]
  · intro hok hwh
    unfold encode
    rw [if_neg (by omega), if_pos hwh]

/-- C7 (witness): componentsX = 0 and componentsX = 10 yield InvalidGrid, and a
valid grid with width 0 yields EmptyImage. -/
theorem encode_error_conditions_witness :
    encode trivOracle [] 0 3 1 1 = Except.error EncodeError.invalidGrid ∧
      encode trivOracle [] 10 3 1 1 = Except.error EncodeError.invalidGrid ∧
      encode trivOracle [] 4 3 0 5 = Except.error EncodeError.emptyImage :=
  ⟨(encode_error_conditions trivOracle [] 0 3 1 1).1 (by decide),
    (encode_error_conditions trivOracle [] 10 3 1 1).1 (by decide),
    (encode_error_conditions trivOracle [] 4 3 0 5).2 (by decide) (Or.inl rfl)⟩

/-! Path model.  A path is a string; the file name is the part after the last
slash.  extension and set_extension follow the Rust Path semantics used by
main.rs: the extension is the portion of the file name after its final dot,
except that a file name with no dot, or one that begins with a dot and has no
other dot, has no extension; set_extension replaces everything after the final
dot of the file name (the whole file name counts as stem when there is no
extension) with a dot followed by the new extension.  The functions work on the
reversed character list so that the final dot is reached structurally. -/

/-- Reversed file-name component: the characters of the path after the last
slash, in reverse order. -/
def fileNameRev (p : String) : List Char := p.data.reverse.takeWhile (fun c => c ≠ '/')

/-- Reversed directory part (everything up to and including the last slash),
in reverse order. -/
def dirRev (p : String) : List Char := p.data.reverse.dropWhile (fun c => c ≠ '/')

/-- Split a reversed file name into (reversed extension, reversed stem), or
none when the name has no extension under the Rust rules. -/
def extSplit (rn : List Char) : Option (List Char × List Char) :=
  match rn.dropWhile (fun c => c ≠ '.') with
  | '.' :: rs => if rs.isEmpty then none else some (rn.takeWhile (fun c => c ≠ '.'), rs)
  | _ => none

/-- Rust Path::extension on the string path model (main.rs lines 82 and 91). -/
def extension (p : String) : Option String :=
  (extSplit (fileNameRev p)).map (fun pr => ⟨pr.1.reverse⟩)

/-- Reversed file stem: the file name without its extension, the whole file
name when there is none (Rust Path::file_stem). -/
def stemRev (p : String) : List Char :=
  match extSplit (fileNameRev p) with
  | some pr => pr.2
  | none => fileNameRev p

/-- Rust Path::set_extension on the string path model (main.rs line 92):
directory part, then the stem, then a dot and the new extension. -/
def set_extension (p : String) (e : String) : String :=
  ⟨(dirRev p).reverse ++ (stemRev p).reverse ++ '.' :: e.data⟩

/-- The artifact path computed by process_image (main.rs lines 90-92) and by
search_directory (main.rs lines 132-134): set_extension with the old extension
(empty when absent) followed by ".bh". -/
def outputFilename (p : String) : String :=
  set_extension p (((extension p).getD "") ++ ".bh")

/-- The candidate extensions of is_image_file (main.rs line 80). -/
def extensionsList : List String := ["jpg", "jpeg", "png", "gif", "bmp", "tiff"]

/-- Per-character lowercasing, the ASCII-relevant part of str::to_lowercase
(no Unicode lowercase of any character outside ASCII produces one of the six
candidate extensions, so membership below agrees with the Rust function). -/
def toLowerStr (s : String) : String := ⟨s.data.map Char.toLower⟩

/-- is_image_file from main.rs lines 79-85: the extension, if any, lowercased,
must be one of the six candidates. -/
def is_image_file (p : String) : Bool :=
  ((extension p).map (fun e => extensionsList.contains (toLowerStr e))).getD false

theorem extSplit_some {rn re rs : List Char} (h : extSplit rn = some (re, rs)) :
    rn = re ++ '.' :: rs := by
  unfold extSplit at h
  split at h
  · next rs2 heq =>
    split at h
    · exact absurd h (by simp)
    · rw [Option.some_inj] at h
      have h1 : List.takeWhile (fun c => decide (c ≠ '.')) rn = re := congrArg Prod.fst h
      have h2 : rs2 = rs := congrArg Prod.snd h
      rw [← h1, ← h2, ← heq]
      exact (List.takeWhile_append_dropWhile _ _).symm
  · exact absurd h (by simp)

theorem data_split (p : String) : p.data = (dirRev p).reverse ++ (fileNameRev p).reverse := by
  have h : fileNameRev p ++ dirRev p = p.data.reverse :=
    List.takeWhile_append_dropWhile (fun c => c ≠ '/') p.data.reverse
  calc p.data = p.data.reverse.reverse := (List.reverse_reverse _).symm
    _ = (fileNameRev p ++ dirRev p).reverse := by rw [h]
    _ = (dirRev p).reverse ++ (fileNameRev p).reverse := List.reverse_append _ _

theorem outputFilename_of_extension {p e : String} (h : extension p = some e) :
    outputFilename p = p ++ ".bh" := by
  unfold extension at h
  cases hs : extSplit (fileNameRev p) with
  | none => rw [hs] at h; cases h
  | some pr =>
    obtain ⟨re, rs⟩ := pr
    have hrn : fileNameRev p = re ++ '.' :: rs := extSplit_some hs
    have hdata := data_split p
    rw [hrn] at hdata
    have hstem : stemRev p = rs := by unfold stemRev; rw [hs]
    have hext : extension p = some ⟨re.reverse⟩ := by unfold extension; rw [hs]; rfl
    unfold outputFilename set_extension
    rw [hstem, hext]
    apply String.ext
    show (dirRev p).reverse ++ rs.reverse ++ '.' :: (⟨re.reverse⟩ ++ ".bh" : String).data =
      (p ++ ".bh").data
    rw [String.data_append, String.data_append, hdata]
    show (dirRev p).reverse ++ rs.reverse ++ '.' :: (re.reverse ++ ".bh".data) = _
    simp [List.reverse_append, List.append_assoc]

theorem extension_of_is_image_file {p : String} (h : is_image_file p = true) :
    ∃ e, extension p = some e ∧ extensionsList.contains (toLowerStr e) = true := by
  unfold is_image_file at h
  cases he : extension p with
  | none => rw [he] at h; cases h
  | some e =>
    rw [he] at h
    exact ⟨e, rfl, h⟩

/-- C9.  A path is classified as a candidate image file if and only if it has
an extension whose lowercase form is one of jpg, jpeg, png, gif, bmp, tiff; a
path with no extension is never a candidate. -/
theorem is_image_file_spec (p : String) :
    (is_image_file p = true ↔
        ∃ e, extension p = some e ∧ extensionsList.contains (toLowerStr e) = true) ∧
      (extension p = none → is_image_file p = false) := by
  constructor
  · constructor
    · exact extension_of_is_image_file
    · intro ⟨e, he, hm⟩
      unfold is_image_file
      rw [he]
      simpa using hm
  · intro hn
    unfold is_image_file
    rw [hn]
    rfl

/-- C9 (witness): a path with an uppercase image extension is a candidate (via
the iff, right to left), and a path with no extension is not (via the second
conjunct). -/
theorem is_image_file_spec_witness :
    is_image_file "photos/CAT.JPG" = true ∧ is_image_file "photos/README" = false :=
  ⟨(is_image_file_spec "photos/CAT.JPG").1.2 ⟨"JPG", by decide, by decide⟩,
    (is_image_file_spec "photos/README").2 (by decide)⟩

/-! Per-file pipeline.  process_image from main.rs lines 88-124, embedded as a
pure function over an environment that answers the three external effects:
whether the artifact path exists when checked, what the image decoder returns
(image::open + dimensions + rgba8 bytes), and whether the file write succeeds.
The observable side effects are returned as an ordered action trace. -/

/-- External effects consumed by the per-file pipeline. -/
structure Env where
  fsExists : String → Bool
  decodeImage : String → Except String (Nat × Nat × List Nat)
  writeOk : String → Bool

/-- Observable side effects of process_image, in program order: the skip log
line (println at main.rs line 95), the decode of the input, the encode, the
artifact write, and the saved log line (println at main.rs line 118). -/
inductive Action where
  | logSkip (path : String)
  | decodeImg (path : String)
  | encodeHash
  | writeFile (path content : String)
  | logSaved (path : String)
deriving DecidableEq

/-- Per-item error kinds: decoder failure, codec failure, write failure. -/
inductive ProcError where
  | decodeFail (msg : String)
  | encodeFail (e : EncodeError)
  | writeFail (path : String)
deriving DecidableEq

/-- process_image from main.rs lines 88-124: build the artifact path, skip if
it exists, otherwise decode, encode and write, with each fallible step turning
into a per-item error. -/
def process_image (env : Env) (o : CodecOracle) (input : String) (cx cy : Nat) :
    Except ProcError Unit × List Action :=
  if env.fsExists (outputFilename input) then
    (.ok (), [.logSkip input])
  else
    match env.decodeImage input with
    | .error e => (.error (.decodeFail e), [.decodeImg input])
    | .ok (w, h, pixels) =>
      match encode o pixels cx cy w h with
      | .error e => (.error (.encodeFail e), [.decodeImg input, .encodeHash])
      | .ok hash =>
        if env.writeOk (outputFilename input) then
          (.ok (), [.decodeImg input, .encodeHash,
            .writeFile (outputFilename input) hash, .logSaved (outputFilename input)])
        else
          (.error (.writeFail (outputFilename input)), [.decodeImg input, .encodeHash])

/-- C2.  For every processed input file (every path the discovery admits
satisfies is_image_file), the artifact path is the input path with ".bh"
appended after the existing extension, and any write process_image performs
targets exactly that path with exactly the encoded text. -/
theorem process_image_writes_bh_path (env : Env) (o : CodecOracle) (p : String) (cx cy : Nat)
    (himg : is_image_file p = true) :
    outputFilename p = p ++ ".bh" ∧
      ∀ q s, Action.writeFile q s ∈ (process_image env o p cx cy).2 →
        q = p ++ ".bh" ∧
          ∃ w h px, env.decodeImage p = Except.ok (w, h, px) ∧ encode o px cx cy w h = Except.ok s := by
  obtain ⟨e, he, _⟩ := extension_of_is_image_file himg
  have hout : outputFilename p = p ++ ".bh" := outputFilename_of_extension he
  refine ⟨hout, ?_⟩
  intro q s hqs
  unfold process_image at hqs
  split at hqs
  · simp at hqs
  · split at hqs
    · simp at hqs
    · next w h px hdec =>
      split at hqs
      · simp at hqs
      · next hash henc =>
        split at hqs
        · simp only [List.mem_cons] at hqs
          rcases hqs with h1 | h1 | h1 | h1 | h1
          · cases h1
          · cases h1
          · injection h1 with hq hs2
            subst hq
            subst hs2
            exact ⟨hout, w, h, px, hdec, henc⟩
          · cases h1
          · cases h1
        · simp at hqs

/-- C2 (witness): the theorem applied to the concrete path photo.jpg. -/
theorem process_image_writes_bh_path_witness :
    is_image_file "photo.jpg" = true ∧
      (outputFilename "photo.jpg" = "photo.jpg" ++ ".bh" ∧
        ∀ q s,
          Action.writeFile q s ∈
              (process_image ⟨fun _ => false, fun _ => Except.error "bad", fun _ => true⟩
                trivOracle "photo.jpg" 4 3).2 →
            q = "photo.jpg" ++ ".bh" ∧
              ∃ w h px,
                (⟨fun _ => false, fun _ => Except.error "bad", fun _ => true⟩ :
                      Env).decodeImage "photo.jpg" = Except.ok (w, h, px) ∧
                  encode trivOracle px 4 3 w h = Except.ok s) :=
  ⟨by decide,
    process_image_writes_bh_path ⟨fun _ => false, fun _ => Except.error "bad", fun _ => true⟩
      trivOracle "photo.jpg" 4 3 (by decide)⟩

/-- C3.  Whenever the artifact path already exists at processing time,
process_image logs the skip, returns a success outcome, and performs no
decode, no encode and no write: the trace is exactly the skip log line. -/
theorem process_image_skips_existing (env : Env) (o : CodecOracle) (input : String) (cx cy : Nat)
    (h : env.fsExists (outputFilename input) = true) :
    process_image env o input cx cy = (Except.ok (), [Action.logSkip input]) := by
  unfold process_image
  rw [if_pos h]

/-- An environment in which every artifact path exists already. -/
def envAllExist : Env := ⟨fun _ => true, fun _ => Except.error "bad", fun _ => false⟩

/-- C3 (witness): the theorem applied in an environment where the artifact of
a.jpg exists. -/
theorem process_image_skips_existing_witness :
    envAllExist.fsExists (outputFilename "a.jpg") = true ∧
      process_image envAllExist trivOracle "a.jpg" 4 3 = (Except.ok (), [Action.logSkip "a.jpg"]) :=
  ⟨rfl, process_image_skips_existing envAllExist trivOracle "a.jpg" 4 3 rfl⟩

/-! Batch orchestrator.  main.rs lines 33-59 spawns one task per discovered
path, waits for all of them with join_all, and then iterates over the collected
results, printing each per-item error to standard error before returning
Ok(()).  The batch is embedded as the list of per-item outcomes (join_all
always yields one result per task, in task order); task panics, the only way
the Rust loop could abort early through the question-mark on the JoinError, are
outside the model. -/

/-- One result per discovered path, in order (main.rs lines 36-50). -/
def runBatch (env : Env) (o : CodecOracle) (paths : List String) (cx cy : Nat) :
    List (Except ProcError Unit × List Action) :=
  paths.map (fun p => process_image env o p cx cy)

/-- The standard-error report lines of the result loop (main.rs lines 53-57):
one line per failed item, in order. -/
def reportErrors (results : List (Except ProcError Unit × List Action)) : List ProcError :=
  results.filterMap (fun r =>
    match r.1 with
    | .error e => some e
    | .ok _ => none)

/-- The result loop of main (main.rs lines 52-59): the stderr lines plus the
value main returns, which is Ok(()) unconditionally. -/
def mainSummary (results : List (Except ProcError Unit × List Action)) :
    List ProcError × Except ProcError Unit :=
  (reportErrors results, Except.ok ())

theorem mem_reportErrors {results : List (Except ProcError Unit × List Action)}
    {r : Except ProcError Unit × List Action} {e : ProcError}
    (hr : r ∈ results) (he : r.1 = Except.error e) : e ∈ reportErrors results := by
  unfold reportErrors
  apply List.mem_filterMap.2
  refine ⟨r, hr, ?_⟩
  rw [he]

/-- C4.  The batch never aborts sibling work on a per-item failure: there is
one collected result per path; each result is exactly that path run to
completion through process_image, unaffected by any other item; and every
failing item has its error reported on standard error. -/
theorem batch_no_early_abort (env : Env) (o : CodecOracle) (paths : List String) (cx cy : Nat) :
    (runBatch env o paths cx cy).length = paths.length ∧
      (∀ i : Nat, (runBatch env o paths cx cy)[i]? =
        (paths[i]?).map (fun p => process_image env o p cx cy)) ∧
      (∀ r, r ∈ runBatch env o paths cx cy → ∀ e, r.1 = Except.error e →
        e ∈ reportErrors (runBatch env o paths cx cy)) := by
  refine ⟨by simp [runBatch], ?_, ?_⟩
  · intro i
    simp [runBatch]
  · intro r hr e he
    exact mem_reportErrors hr he

/-- An environment in which no artifact exists and every decode fails. -/
def envDecodeFail : Env := ⟨fun _ => false, fun _ => Except.error "bad", fun _ => true⟩

/-- C4 (witness): in a two-item batch whose first item fails to decode, the
failing item is in the collected results and its error is reported. -/
theorem batch_no_early_abort_witness :
    ((Except.error (ProcError.decodeFail "bad"), [Action.decodeImg "a.jpg"]) ∈
        runBatch envDecodeFail trivOracle ["a.jpg", "b.png"] 4 3) ∧
      ProcError.decodeFail "bad" ∈
        reportErrors (runBatch envDecodeFail trivOracle ["a.jpg", "b.png"] 4 3) := by
  have hm : (Except.error (ProcError.decodeFail "bad"), [Action.decodeImg "a.jpg"]) ∈
      runBatch envDecodeFail trivOracle ["a.jpg", "b.png"] 4 3 := List.Mem.head _
  exact ⟨hm,
    (batch_no_early_abort envDecodeFail trivOracle ["a.jpg", "b.png"] 4 3).2.2 _ hm _ rfl⟩

/-- C5 (counterexample).  The summary-level signal is not derived from whether
any item failed: in a one-item batch whose item fails, the error is reported,
yet the value main returns is still Ok(()). -/
theorem summary_signal_counterexample :
    reportErrors (runBatch envDecodeFail trivOracle ["a.jpg"] 4 3) =
        [ProcError.decodeFail "bad"] ∧
      (mainSummary (runBatch envDecodeFail trivOracle ["a.jpg"] 4 3)).2 = Except.ok () := by
  constructor
  · decide
  · rfl

theorem process_image_ok_logs (env : Env) (o : CodecOracle) (p : String) (cx cy : Nat) :
    (process_image env o p cx cy).1 = Except.ok () →
      Action.logSkip p ∈ (process_image env o p cx cy).2 ∨
        Action.logSaved (outputFilename p) ∈ (process_image env o p cx cy).2 := by
  unfold process_image
  split
  · intro _
    left
    simp
  · split
    · intro hcontra
      simp at hcontra
    · split
      · intro hcontra
        simp at hcontra
      · split
        · intro _
          right
          simp
        · intro hcontra
          simp at hcontra

/-- C5 (amended).  Every terminal outcome is reported individually: a
successful item logged its skip or its saved artifact path, and a failed item
has its error on the standard-error report; the process-level result of main is
success regardless of whether any item failed. -/
theorem batch_reporting_and_summary (env : Env) (o : CodecOracle) (paths : List String)
    (cx cy : Nat) :
    (∀ (i : Nat) (p : String), paths[i]? = some p →
      ∃ r, (runBatch env o paths cx cy)[i]? = some r ∧
        (r.1 = Except.ok () →
          Action.logSkip p ∈ r.2 ∨ Action.logSaved (outputFilename p) ∈ r.2) ∧
        (∀ e, r.1 = Except.error e → e ∈ reportErrors (runBatch env o paths cx cy))) ∧
      (mainSummary (runBatch env o paths cx cy)).2 = Except.ok () := by
  refine ⟨?_, rfl⟩
  intro i p hp
  refine ⟨process_image env o p cx cy, by simp [runBatch, hp], ?_, ?_⟩
  · exact process_image_ok_logs env o p cx cy
  · intro e he
    have hr : process_image env o p cx cy ∈ runBatch env o paths cx cy := by
      unfold runBatch
      exact List.mem_map_of_mem _ (List.getElem?_mem hp)
    exact mem_reportErrors hr he

/-- C5 (witness): the amended theorem applied to a one-item batch that skips,
in the environment where every artifact exists. -/
theorem batch_reporting_and_summary_witness :
    (∃ r, (runBatch envAllExist trivOracle ["a.jpg"] 4 3)[0]? = some r ∧
        (r.1 = Except.ok () →
          Action.logSkip "a.jpg" ∈ r.2 ∨ Action.logSaved (outputFilename "a.jpg") ∈ r.2) ∧
        (∀ e, r.1 = Except.error e →
          e ∈ reportErrors (runBatch envAllExist trivOracle ["a.jpg"] 4 3))) ∧
      (mainSummary (runBatch envAllExist trivOracle ["a.jpg"] 4 3)).2 = Except.ok () :=
  ⟨(batch_reporting_and_summary envAllExist trivOracle ["a.jpg"] 4 3).1 0 "a.jpg" rfl,
    (batch_reporting_and_summary envAllExist trivOracle ["a.jpg"] 4 3).2⟩

/-! File discovery.  search_directory (main.rs lines 126-145) walks a directory
tree, recursing into subdirectories and collecting image files whose artifact
does not already exist; get_image_paths (main.rs lines 62-77) dispatches each
input: the empty path and "." scan the current working directory, a directory
input is scanned, and any other input is pushed when is_image_file accepts it,
with no artifact-existence check and no error.  The filesystem is embedded as a
tree of nodes carrying full path strings, plus an artifact-existence predicate;
read_dir and current_dir I/O failures are outside the model (the model
traversal is total). -/

/-- A directory entry: a file path or a directory with its entries. -/
inductive FsNode where
  | file (path : String)
  | dir (path : String) (children : List FsNode)

/-- search_directory from main.rs lines 126-145, with ex the artifact-existence
predicate: directories are recursed into in place, image files are collected
exactly when their artifact does not exist (else the skip is logged). -/
def search_directory (ex : String → Bool) : List FsNode → List String
  | [] => []
  | FsNode.dir _ cs :: rest => search_directory ex cs ++ search_directory ex rest
  | FsNode.file p :: rest =>
    (if is_image_file p then (if ex (outputFilename p) then [] else [p]) else []) ++
      search_directory ex rest

/-- The inputs of file discovery: the artifact-existence predicate, the current
working directory entries, and the directory test with entries for each input
path (none when the input is not a directory). -/
structure DiscoverEnv where
  ex : String → Bool
  cwdEntries : List FsNode
  dirOf : String → Option (List FsNode)

/-- get_image_paths from main.rs lines 62-77. -/
def get_image_paths (env : DiscoverEnv) (inputs : List String) : List String :=
  (inputs.map (fun input =>
    if input = "" ∨ input = "." then search_directory env.ex env.cwdEntries
    else
      match env.dirOf input with
      | some cs => search_directory env.ex cs
      | none => if is_image_file input then [input] else [])).flatten

theorem search_directory_mem (ex : String → Bool) (nodes : List FsNode) (p : String)
    (hp : p ∈ search_directory ex nodes) :
    is_image_file p = true ∧ ex (outputFilename p) = false := by
  induction nodes using search_directory.induct ex with
  | case1 => simp [search_directory] at hp
  | case2 d cs rest ih1 ih2 =>
    rw [search_directory] at hp
    rcases List.mem_append.1 hp with h | h
    · exact ih1 h
    · exact ih2 h
  | case3 q rest ih =>
    rw [search_directory] at hp
    rcases List.mem_append.1 hp with h | h
    · split at h
      · next himg =>
        split at h
        · simp at h
        · next hex =>
          simp only [List.mem_singleton] at h
          subst h
          exact ⟨himg, by simpa using hex⟩
      · simp at h
    · exact ih h

/-- An environment for discovery in which every artifact exists and no input is
a directory. -/
def envDiscAllExist : DiscoverEnv := ⟨fun _ => true, [], fun _ => none⟩

/-- C6 (counterexample).  The existence check is not performed at discovery for
an input given directly as a file path: with every artifact existing, the file
input a.jpg still enters the work list, although a discovery-time check (as the
directory walk performs) would have excluded it. -/
theorem discovery_direct_file_no_check :
    get_image_paths envDiscAllExist ["a.jpg"] = ["a.jpg"] ∧
      envDiscAllExist.ex (outputFilename "a.jpg") = true := by
  constructor
  · decide
  · rfl

/-- C6 (amended).  The artifact-existence check deciding a skip is performed
twice only for candidates found by the directory walk: everything the walk
discovers passed a discovery-time check (its artifact did not exist), and
process_image checks again immediately before processing; a candidate given
directly as a file argument is checked only by process_image. -/
theorem existence_check_locations (ex : String → Bool) (nodes : List FsNode)
    (env : Env) (o : CodecOracle) (cx cy : Nat) (p q : String) :
    (p ∈ search_directory ex nodes →
        is_image_file p = true ∧ ex (outputFilename p) = false) ∧
      (env.fsExists (outputFilename q) = true →
        process_image env o q cx cy = (Except.ok (), [Action.logSkip q])) := by
  constructor
  · exact search_directory_mem ex nodes p
  · intro h
    unfold process_image
    rw [if_pos h]

/-- C6 (witness): the theorem applied to a walk that discovers b.png (no
artifact exists) and to a processing-time check that skips a.jpg. -/
theorem existence_check_locations_witness :
    (is_image_file "b.png" = true ∧ (fun _ => false) (outputFilename "b.png") = false) ∧
      process_image envAllExist trivOracle "a.jpg" 4 3 =
        (Except.ok (), [Action.logSkip "a.jpg"]) :=
  ⟨(existence_check_locations (fun _ => false) [FsNode.file "b.png"] envAllExist trivOracle
      4 3 "b.png" "a.jpg").1
      (by simp [search_directory, show is_image_file "b.png" = true from by decide]),
    (existence_check_locations (fun _ => false) [FsNode.file "b.png"] envAllExist trivOracle
      4 3 "b.png" "a.jpg").2 rfl⟩

/-- C10.  An input that is the empty path or "." makes get_image_paths scan the
current working directory instead; an input that is neither a directory nor a
file with an image extension contributes no candidate paths (and the branch
performs no fallible operation, so no error is raised); and each input
contributes its paths independently. -/
theorem get_image_paths_inputs (env : DiscoverEnv) (p : String)
    (inputs1 inputs2 : List String) :
    ((p = "" ∨ p = ".") → get_image_paths env [p] = search_directory env.ex env.cwdEntries) ∧
      (¬(p = "" ∨ p = ".") → env.dirOf p = none → is_image_file p = false →
        get_image_paths env [p] = []) ∧
      (get_image_paths env (inputs1 ++ inputs2) =
        get_image_paths env inputs1 ++ get_image_paths env inputs2) := by
  refine ⟨?_, ?_, ?_⟩
  · intro hp
    simp [get_image_paths, if_pos hp]
  · intro hp hdir himg
    simp [get_image_paths, if_neg hp, hdir, himg]
  · simp [get_image_paths]

/-- C10 (witness): the theorem applied with "." scanning the working directory
and with a non-directory non-image input notes.txt contributing nothing. -/
theorem get_image_paths_inputs_witness :
    (get_image_paths envDiscAllExist ["."] =
        search_directory envDiscAllExist.ex envDiscAllExist.cwdEntries) ∧
      get_image_paths envDiscAllExist ["notes.txt"] = [] :=
  ⟨(get_image_paths_inputs envDiscAllExist "." [] []).1 (Or.inr rfl),
    (get_image_paths_inputs envDiscAllExist "notes.txt" [] []).2.1 (by decide) rfl (by decide)⟩

/-! Worker pool.  main.rs lines 33-47 create a semaphore with one permit per
processing core and spawn one task per path; each task first acquires a permit,
then runs process_image, and releases the permit when it completes (the permit
guard is dropped at the end of the task).  The pool is embedded as an
interleaved transition system over the per-task phases: a waiting task may
start only when fewer than n tasks are running (acquire succeeds only when a
permit is free), and a running task may finish (releasing its permit).  Being
in the running phase is holding a permit: a task is past slot acquisition,
decoding and encoding, exactly while it is running. -/

/-- The phase of one spawned task. -/
inductive Phase where
  | waiting
  | running
  | done
deriving DecidableEq

/-- The number of tasks currently holding a pool slot. -/
def runningCount (ps : List Phase) : Nat := ps.countP (fun p => p == Phase.running)

/-- One interleaving step of the pool with n permits: a waiting task acquires a
free permit and starts, or a running task completes and releases its permit. -/
inductive PoolStep (n : Nat) : List Phase → List Phase → Prop where
  | acquire (ps : List Phase) (i : Nat) (hw : ps[i]? = some Phase.waiting)
      (hfree : runningCount ps < n) : PoolStep n ps (ps.set i Phase.running)
  | finish (ps : List Phase) (i : Nat) (hr : ps[i]? = some Phase.running) :
      PoolStep n ps (ps.set i Phase.done)

/-- Reachability of a pool state from the initial state by interleaved steps. -/
inductive PoolReach (n : Nat) (init : List Phase) : List Phase → Prop where
  | refl : PoolReach n init init
  | step (mid fin : List Phase) : PoolReach n init mid → PoolStep n mid fin →
      PoolReach n init fin

theorem countP_set (q : Phase → Bool) :
    ∀ (ps : List Phase) (i : Nat) (a b : Phase), ps[i]? = some a →
      (ps.set i b).countP q + (if q a then 1 else 0) =
        ps.countP q + (if q b then 1 else 0) := by
  intro ps
  induction ps with
  | nil => intro i a b h; simp at h
  | cons c t ih =>
    intro i a b h
    cases i with
    | zero =>
      simp only [List.getElem?_cons_zero, Option.some_inj] at h
      subst h
      simp only [List.set_cons_zero, List.countP_cons]
      omega
    | succ j =>
      simp only [List.getElem?_cons_succ] at h
      have := ih j a b h
      simp only [List.set_cons_succ, List.countP_cons]
      omega

/-- C8.  At every moment of a batch run, at most n tasks are past slot
acquisition: in every pool state reachable from the all-waiting initial state,
the number of running tasks never exceeds the permit count n, because the only
transition into the running phase is an acquire, which requires a free
permit. -/
theorem pool_concurrency_bound (n k : Nat) (s : List Phase)
    (h : PoolReach n (List.replicate k Phase.waiting) s) : runningCount s ≤ n := by
  induction h with
  | refl =>
    unfold runningCount
    induction k with
    | zero => simp
    | succ m ihm => simpa [List.replicate_succ, List.countP_cons] using ihm
  | step mid fin hreach hstep ih =>
    cases hstep with
    | acquire i hw hfree =>
      have hc := countP_set (fun p => p == Phase.running) mid i Phase.waiting Phase.running hw
      unfold runningCount at *
      simp only [beq_iff_eq, reduceCtorEq, if_false, if_true] at hc
      omega
    | finish i hr =>
      have hc := countP_set (fun p => p == Phase.running) mid i Phase.running Phase.done hr
      unfold runningCount at *
      simp only [beq_iff_eq, reduceCtorEq, if_false, if_true] at hc
      omega

/-- C8 (witness): with 2 permits and 3 tasks, the state reached after one
acquire has at most 2 running tasks. -/
theorem pool_concurrency_bound_witness :
    runningCount [Phase.running, Phase.waiting, Phase.waiting] ≤ 2 :=
  pool_concurrency_bound 2 3 [Phase.running, Phase.waiting, Phase.waiting]
    (PoolReach.step _ _ PoolReach.refl
      (PoolStep.acquire (List.replicate 3 Phase.waiting) 0 rfl (by decide)))

end Blurhash
